import Mathlib

/-!
Verification development for the session-scoped relay and transfer protocol
of the file-share program.

Server side (the socket-protocol file): a session registry mapping session
codes to an owning socket id plus a pending expiry timer, room-scoped event
relay, and teardown that also purges transient upload artifacts by
session-code prefix.

Client side (the UI module's networking logic): the chunked sender loop
(`sendFiles` / `fileReader.onload`) and the receiver listeners for
`file-chunk` and `transfer-complete`.

Numbers are embedded as `Nat` (all sizes and offsets in the source are
nonnegative integers below 2^53, where JavaScript numbers are exact) and
the progress tag attached to a chunk as `ℚ` (the source computes it by
exact division of such integers; the empty-file case, where JavaScript
would produce NaN, is excluded by hypothesis in the theorems below).
Wall-clock data (transfer speed strings) is elided from the receiver
state: no claim mentions it.
-/

namespace FileShare

/-- Source constant `SESSION_TIMEOUT = 300000` (5 minutes). -/
def SESSION_TIMEOUT : Nat := 300000

/-- Source constant `MAX_FILE_SIZE = 1024 * 1024 * 1024 * 2` (2 GiB). -/
def MAX_FILE_SIZE : Nat := 1024 * 1024 * 1024 * 2

/-- Source constant `CHUNK_SIZE = 64 * 1024` (64 KiB). -/
def CHUNK_SIZE : Nat := 64 * 1024

/-- A registry entry: `sessions.set(code, { socketId, timeout })`.  The
`NodeJS.Timeout` handle is embedded as the numeric id of the timer. -/
structure Session where
  socketId : String
  timerId : Nat
deriving DecidableEq

/-- A timer created by `setTimeout` in the create-session handler.  Its
callback closes over the session `code` and the creating socket, so both
are recorded alongside the timer id. -/
structure Timer where
  id : Nat
  code : String
  ownerSid : String
deriving DecidableEq

/-- The events the server can emit, with their payloads. -/
inductive SEvent
  | sessionCreated (code : String)
  | sessionExpired
  | invalidSession
  | receiverJoined
  | errorMsg (msg : String)
  | fileMeta (name : String) (size : Nat) (mime : String)
  | fileChunk (chunk : List Nat) (progress : ℚ)
  | transferComplete
deriving DecidableEq

/-- Where an emit is addressed: `socket.emit` goes to one socket only;
`socket.to(code).emit` goes to the room `code`, excluding the emitting
socket `senderSid` (socket.io broadcast semantics). -/
inductive Target
  | socket (sid : String)
  | room (code : String) (senderSid : String)
deriving DecidableEq

/-- One emitted event: an address plus the event itself. -/
structure Emit where
  target : Target
  event : SEvent
deriving DecidableEq

/-- The whole server-side state: the `sessions` map (association list),
the set of still-pending `setTimeout` timers, a counter issuing fresh
timer ids, room membership pairs `(code, socketId)`, the names in the
transient upload store, and the log of emitted events. -/
structure ServerState where
  sessions : List (String × Session)
  pending : List Timer
  nextTimer : Nat
  rooms : List (String × String)
  uploads : List String
  emitted : List Emit
deriving DecidableEq

/-- The empty server state at process start. -/
def initState : ServerState := ⟨[], [], 0, [], [], []⟩

/-- `sessions.get(code)` / `sessions.has(code)` on the association list. -/
def lookupS (code : String) : List (String × Session) → Option Session
  | [] => none
  | (c, s) :: rest => if c = code then some s else lookupS code rest

/-- `cleanupSession(sessionCode)`: if a session is registered under the
code, clear its timer, delete the registry entry and unlink every upload
whose filename starts with the code; otherwise do nothing (the whole body
is guarded by `if (session)`). -/
def cleanupSession (code : String) (st : ServerState) : ServerState :=
  match lookupS code st.sessions with
  | none => st
  | some s =>
    { st with
      sessions := st.sessions.filter (fun p => p.1 != code)
      pending := st.pending.filter (fun t => t.id != s.timerId)
      uploads := st.uploads.filter (fun f => !(f.startsWith code)) }

/-- The `create-session` handler: first `cleanupSession(code)`, then
register the caller as owner with a fresh expiry timer, join the caller to
the room, and acknowledge with `session-created`. -/
def createSession (code sid : String) (st : ServerState) : ServerState :=
  let st1 := cleanupSession code st
  { st1 with
    sessions := (code, ⟨sid, st1.nextTimer⟩) :: st1.sessions
    pending := ⟨st1.nextTimer, code, sid⟩ :: st1.pending
    nextTimer := st1.nextTimer + 1
    rooms := (code, sid) :: st1.rooms
    emitted := st1.emitted ++ [⟨Target.socket sid, SEvent.sessionCreated code⟩] }

/-- The `join-session` handler: on an unknown code emit `invalid-session`
to the caller and return; otherwise join the room and notify the other
room members with `receiver-joined`. -/
def joinSession (sid code : String) (st : ServerState) : ServerState :=
  if lookupS code st.sessions = none then
    { st with emitted := st.emitted ++ [⟨Target.socket sid, SEvent.invalidSession⟩] }
  else
    { st with
      rooms := (code, sid) :: st.rooms
      emitted := st.emitted ++ [⟨Target.room code sid, SEvent.receiverJoined⟩] }

/-- The `file-meta` handler: unknown code yields `invalid-session`;
`size > MAX_FILE_SIZE` yields an `error` event with a human-readable
message to the caller only; otherwise the metadata is rebroadcast to the
room. -/
def handleFileMeta (sid name : String) (size : Nat) (mime code : String)
    (st : ServerState) : ServerState :=
  if lookupS code st.sessions = none then
    { st with emitted := st.emitted ++ [⟨Target.socket sid, SEvent.invalidSession⟩] }
  else if size > MAX_FILE_SIZE then
    { st with emitted := st.emitted ++
        [⟨Target.socket sid, SEvent.errorMsg "File size exceeds 2GB limit"⟩] }
  else
    { st with emitted := st.emitted ++
        [⟨Target.room code sid, SEvent.fileMeta name size mime⟩] }

/-- The `file-chunk` handler: unknown code yields `invalid-session`,
otherwise the chunk and progress tag are relayed to the room. -/
def handleFileChunk (sid : String) (chunk : List Nat) (code : String)
    (progress : ℚ) (st : ServerState) : ServerState :=
  if lookupS code st.sessions = none then
    { st with emitted := st.emitted ++ [⟨Target.socket sid, SEvent.invalidSession⟩] }
  else
    { st with emitted := st.emitted ++
        [⟨Target.room code sid, SEvent.fileChunk chunk progress⟩] }

/-- The `transfer-complete` handler: if the session exists, relay the
completion signal to the room and tear the session down. -/
def handleTransferComplete (sid code : String) (st : ServerState) : ServerState :=
  if (lookupS code st.sessions).isSome then
    cleanupSession code
      { st with emitted := st.emitted ++ [⟨Target.room code sid, SEvent.transferComplete⟩] }
  else st

/-- The expiry callback installed by `setTimeout` in create-session.  In
Node a cancelled timer never runs, so the callback is guarded by the
timer still being pending; firing consumes the timer, emits
`session-expired` to the room (from the owner's socket) and runs
`cleanupSession(code)`. -/
def fireExpiry (t : Timer) (st : ServerState) : ServerState :=
  if t ∈ st.pending then
    cleanupSession t.code
      { st with
        pending := st.pending.filter (fun u => u.id != t.id)
        emitted := st.emitted ++ [⟨Target.room t.code t.ownerSid, SEvent.sessionExpired⟩] }
  else st

/-- One step of the `disconnect` scan: tear the entry's session down when
it is owned by the disconnecting socket. -/
def discStep (sid : String) (acc : ServerState) (p : String × Session) : ServerState :=
  if p.2.socketId = sid then cleanupSession p.1 acc else acc

/-- The `disconnect` handler: scan the registry and tear down every
session owned by the disconnecting socket. -/
def handleDisconnect (sid : String) (st : ServerState) : ServerState :=
  st.sessions.foldl (discStep sid) st

/-- The sockets currently joined to a room. -/
def roomMembers (code : String) (st : ServerState) : List String :=
  (st.rooms.filter (fun m => m.1 == code)).map Prod.snd

/-- The connections that actually receive an emitted event: a direct
`socket.emit` reaches exactly that socket; a `socket.to(code).emit`
reaches every member of the room except the emitting socket. -/
def recipients (st : ServerState) (e : Emit) : List String :=
  match e.target with
  | Target.socket sid => [sid]
  | Target.room code sender => (roomMembers code st).filter (fun m => m != sender)

/-! ### Client model -/

/-- The `status` field of a client-side `FileData` record. -/
inductive FileStatus
  | pending
  | transferring
  | completed
  | error
deriving DecidableEq

/-- The client-side `FileData` record (the optional `File` handle and the
derived speed string are elided; `received` and `chunks` are the
receiver-side accumulators). -/
structure FileData where
  id : String
  name : String
  size : Nat
  mime : String
  received : Nat
  chunks : List (List Nat)
  status : FileStatus
deriving DecidableEq

/-- One entry of the `transferProgress` record (speed string elided). -/
structure ProgEntry where
  bytes : Nat
  total : Nat
deriving DecidableEq

/-- The receiver-side component state touched by the socket listeners. -/
structure ReceiverState where
  files : List FileData
  transferProgress : List (String × ProgEntry)
deriving DecidableEq

/-- Association-list read of `transferProgress[id]`. -/
def lookupProg (id : String) : List (String × ProgEntry) → Option ProgEntry
  | [] => none
  | (k, v) :: rest => if k = id then some v else lookupProg id rest

/-- The object-spread update `{ ...prev, [id]: v }`. -/
def setProg (id : String) (v : ProgEntry) (l : List (String × ProgEntry)) :
    List (String × ProgEntry) :=
  (id, v) :: l.filter (fun p => p.1 != id)

/-- The `file-chunk` listener: it reads `files[files.length - 1]`; when
the list is empty (`lastFile` undefined) the whole update is skipped,
otherwise the chunk is appended to the last file entry, its `received`
counter grows by the chunk length and `transferProgress` is updated. -/
def onFileChunk (chunk : List Nat) (st : ReceiverState) : ReceiverState :=
  match st.files.getLast? with
  | none => st
  | some lastFile =>
    let lastProgress :=
      match lookupProg lastFile.id st.transferProgress with
      | some e => e.bytes
      | none => 0
    { files := st.files.map fun f =>
        if f.id = lastFile.id then
          { f with received := f.received + chunk.length, chunks := f.chunks ++ [chunk] }
        else f
      transferProgress :=
        setProg lastFile.id ⟨lastProgress + chunk.length, lastFile.size⟩
          st.transferProgress }

/-- The `transfer-complete` listener: every file still `transferring` is
marked `completed`; the status of every other file is left as is. -/
def onTransferComplete (files : List FileData) : List FileData :=
  files.map fun f =>
    { f with status :=
        if f.status = FileStatus.transferring then FileStatus.completed else f.status }

/-- The chunking loop of `sendFiles`: at byte `offset` of a file of
`fileSize` bytes the sender reads the slice
`file.slice(offset, offset + CHUNK_SIZE)`, emits it tagged with
`(offset / fileSize) * 100`, advances `offset` by the chunk's length and
continues while `offset < fileSize`.  The second conjunct of the guard is
the termination variant; on every call made by `senderChunks` it is
equivalent to the source's check (`offset + chunkLen < fileSize`), see
`sendLoop_guard_iff`. -/
def sendLoop (fileSize offset : Nat) (rem : List Nat) : List (List Nat × ℚ) :=
  if h : offset + (rem.take CHUNK_SIZE).length < fileSize ∧
      (rem.take CHUNK_SIZE).length < rem.length then
    (rem.take CHUNK_SIZE, ((offset : ℚ) / (fileSize : ℚ)) * 100)
      :: sendLoop fileSize (offset + (rem.take CHUNK_SIZE).length) (rem.drop CHUNK_SIZE)
  else
    [(rem.take CHUNK_SIZE, ((offset : ℚ) / (fileSize : ℚ)) * 100)]
termination_by rem.length
decreasing_by
  have h1 : ¬ rem.length ≤ CHUNK_SIZE := fun hle => by
    rw [List.take_of_length_le hle] at h
    exact lt_irrefl _ h.2
  have h2 : 0 < CHUNK_SIZE := by norm_num [CHUNK_SIZE]
  simp only [List.length_drop]
  omega

/-- The full sequence of `(chunk, progress)` pairs that `sendFiles` emits
for a file with the given byte content. -/
def senderChunks (content : List Nat) : List (List Nat × ℚ) :=
  sendLoop content.length 0 content

/-- The tagging discipline of the sender, read off a chunk list: starting
from byte `offset`, each chunk carries the tag `(offset / fileSize) * 100`
computed before adding the chunk's own length. -/
def TagsFrom (fileSize : Nat) : Nat → List (List Nat × ℚ) → Prop
  | _, [] => True
  | offset, c :: rest =>
      c.2 = ((offset : ℚ) / (fileSize : ℚ)) * 100
        ∧ TagsFrom fileSize (offset + c.1.length) rest

/-- The tagging discipline asserted by the specification's words: each
chunk carries the plain fraction `offset / totalSize` (no percentage
scaling).  Kept separate from `TagsFrom` so the two can be compared. -/
def TagsFractional (fileSize : Nat) : Nat → List (List Nat × ℚ) → Prop
  | _, [] => True
  | offset, c :: rest =>
      c.2 = (offset : ℚ) / (fileSize : ℚ)
        ∧ TagsFractional fileSize (offset + c.1.length) rest

/-- The specification's claim C3 as stated: every chunk emitted by the
sender is tagged with the plain fraction `offset / totalSize`. -/
def ProgressFractionalClaim (content : List Nat) : Prop :=
  TagsFractional content.length 0 (senderChunks content)

/-- The specification's claim C4 as stated: the progress tags are
non-decreasing and the final chunk's reported progress plus that chunk's
own length equals the declared total size. -/
def C4Claimed (content : List Nat) : Prop :=
  List.Pairwise (· ≤ ·) ((senderChunks content).map Prod.snd)
    ∧ ∀ c p, (senderChunks content).getLast? = some (c, p) →
        p + (c.length : ℚ) = (content.length : ℚ)

/-! ### Concrete states used by witnesses and counterexamples -/

/-- A server state holding one live session `"C"` owned by `"owner"`,
with its pending timer, the owner in the room, and two stored uploads,
one of them prefixed by the session code. -/
def demoState : ServerState :=
  { sessions := [("C", ⟨"owner", 0⟩)]
    pending := [⟨0, "C", "owner"⟩]
    nextTimer := 1
    rooms := [("C", "owner")]
    uploads := ["C-part", "other"]
    emitted := [] }

/-- The state reached from a fresh server by `create-session "C"` from
`"owner"` followed by `join-session "C"` from `"recv"`. -/
def cexState : ServerState := joinSession "recv" "C" (createSession "C" "owner" initState)

/-- A state with sessions `"A"` (owned by `"s1"`) and `"B"` (owned by
`"s2"`), both timers pending. -/
def st9 : ServerState :=
  { sessions := [("A", ⟨"s1", 0⟩), ("B", ⟨"s2", 1⟩)]
    pending := [⟨0, "A", "s1"⟩, ⟨1, "B", "s2"⟩]
    nextTimer := 2
    rooms := [("A", "s1"), ("B", "s2")]
    uploads := []
    emitted := [] }

/-- Two receiver-side files: one still transferring with `received`
strictly below its declared size, one in error state. -/
def demoFiles : List FileData :=
  [⟨"id1", "a.txt", 10, "text/plain", 3, [[1, 2, 3]], FileStatus.transferring⟩,
   ⟨"id2", "b.txt", 5, "text/plain", 5, [], FileStatus.error⟩]

/-! ### Registry lemmas -/

lemma lookupS_filter_self (code : String) :
    ∀ l : List (String × Session), lookupS code (l.filter (fun p => p.1 != code)) = none
  | [] => rfl
  | (c, s) :: rest => by
    rw [List.filter_cons]
    by_cases h : c = code
    · simp only [h, bne_self_eq_false]
      exact lookupS_filter_self code rest
    · simp only [bne_iff_ne, ne_eq, h, not_false_eq_true, if_true]
      rw [lookupS, if_neg h]
      exact lookupS_filter_self code rest

lemma lookupS_filter_other (code c' : String) (h : c' ≠ code) :
    ∀ l : List (String × Session),
      lookupS code (l.filter (fun p => p.1 != c')) = lookupS code l
  | [] => rfl
  | (c, s) :: rest => by
    by_cases hcc : c = c'
    · subst hcc
      have hc : c ≠ code := fun he => h he
      simp [List.filter_cons, lookupS, hc, lookupS_filter_other code c h rest]
    · by_cases hc : c = code
      · subst hc
        simp [List.filter_cons, bne_iff_ne, hcc, lookupS]
      · simp [List.filter_cons, bne_iff_ne, hcc, lookupS, hc,
          lookupS_filter_other code c' h rest]

lemma lookupS_none_filter (code : String) (q : String × Session → Bool) :
    ∀ l : List (String × Session),
      lookupS code l = none → lookupS code (l.filter q) = none
  | [], _ => rfl
  | (c, s) :: rest, h => by
    rw [lookupS] at h
    by_cases hc : c = code
    · rw [if_pos hc] at h; exact absurd h (by simp)
    · rw [if_neg hc] at h
      rw [List.filter_cons]
      by_cases hq : q (c, s)
      · rw [if_pos hq, lookupS, if_neg hc]
        exact lookupS_none_filter code q rest h
      · rw [if_neg hq]
        exact lookupS_none_filter code q rest h

lemma lookupS_mem {code : String} :
    ∀ {l : List (String × Session)} {s : Session},
      lookupS code l = some s → (code, s) ∈ l
  | [], s, h => by simp [lookupS] at h
  | (c, s') :: rest, s, h => by
    rw [lookupS] at h
    by_cases hc : c = code
    · rw [if_pos hc] at h
      cases h
      exact hc ▸ List.mem_cons_self _ _
    · rw [if_neg hc] at h
      exact List.mem_cons_of_mem _ (lookupS_mem h)

lemma lookupS_of_mem_nodup {code : String} {s : Session} :
    ∀ {l : List (String × Session)},
      (l.map Prod.fst).Nodup → (code, s) ∈ l → lookupS code l = some s
  | [], _, hm => absurd hm (List.not_mem_nil _)
  | (c, s') :: rest, hn, hm => by
    rcases List.mem_cons.mp hm with he | hm'
    · cases he
      rw [lookupS, if_pos rfl]
    · have hc : c ≠ code := by
        intro he
        have : code ∈ rest.map Prod.fst := List.mem_map_of_mem Prod.fst hm'
        rw [List.map_cons, List.nodup_cons] at hn
        exact hn.1 (he ▸ this)
      rw [lookupS, if_neg hc]
      exact lookupS_of_mem_nodup (by rw [List.map_cons, List.nodup_cons] at hn; exact hn.2) hm'

lemma nodup_keys_eq :
    ∀ {l : List (String × Session)} {p q : String × Session},
      (l.map Prod.fst).Nodup → p ∈ l → q ∈ l → p.1 = q.1 → p = q
  | [], p, q, _, hp, _, _ => absurd hp (List.not_mem_nil _)
  | x :: rest, p, q, hn, hp, hq, hpq => by
    rw [List.map_cons, List.nodup_cons] at hn
    rcases List.mem_cons.mp hp with hp1 | hp2 <;> rcases List.mem_cons.mp hq with hq1 | hq2
    · rw [hp1, hq1]
    · exact absurd (List.mem_map_of_mem Prod.fst hq2) (by rw [← hpq, hp1]; exact hn.1)
    · exact absurd (List.mem_map_of_mem Prod.fst hp2) (by rw [hpq, hq1]; exact hn.1)
    · exact nodup_keys_eq hn.2 hp2 hq2 hpq

/-! ### Teardown (`cleanupSession`) lemmas -/

lemma cleanup_of_none {code : String} {st : ServerState}
    (h : lookupS code st.sessions = none) : cleanupSession code st = st := by
  rw [cleanupSession, h]

lemma cleanup_lookup_self (code : String) (st : ServerState) :
    lookupS code (cleanupSession code st).sessions = none := by
  rw [cleanupSession]
  cases h : lookupS code st.sessions with
  | none => exact h
  | some s => exact lookupS_filter_self code st.sessions

lemma cleanup_lookup_other {code c' : String} (h : c' ≠ code) (st : ServerState) :
    lookupS code (cleanupSession c' st).sessions = lookupS code st.sessions := by
  rw [cleanupSession]
  cases hl : lookupS c' st.sessions with
  | none => rfl
  | some s => exact lookupS_filter_other code c' h st.sessions

lemma cleanup_pending_sub {c : String} {st : ServerState} {u : Timer}
    (h : u ∈ (cleanupSession c st).pending) : u ∈ st.pending := by
  rw [cleanupSession] at h
  cases hl : lookupS c st.sessions with
  | none => rw [hl] at h; exact h
  | some s => rw [hl] at h; exact (List.mem_filter.mp h).1

lemma cleanup_lookup_none_mono {code : String} (c : String) {st : ServerState}
    (h : lookupS code st.sessions = none) :
    lookupS code (cleanupSession c st).sessions = none := by
  rw [cleanupSession]
  cases hl : lookupS c st.sessions with
  | none => exact h
  | some s => exact lookupS_none_filter code _ st.sessions h

lemma cleanup_removes_timer {code : String} {st : ServerState} {s : Session}
    (h : lookupS code st.sessions = some s) :
    ∀ u ∈ (cleanupSession code st).pending, u.id ≠ s.timerId := by
  intro u hu
  rw [cleanupSession, h] at hu
  exact bne_iff_ne.mp (List.mem_filter.mp hu).2

lemma cleanup_nextTimer (c : String) (st : ServerState) :
    (cleanupSession c st).nextTimer = st.nextTimer := by
  rw [cleanupSession]; cases lookupS c st.sessions <;> rfl

lemma cleanup_emitted (c : String) (st : ServerState) :
    (cleanupSession c st).emitted = st.emitted := by
  rw [cleanupSession]; cases lookupS c st.sessions <;> rfl

lemma cleanup_rooms (c : String) (st : ServerState) :
    (cleanupSession c st).rooms = st.rooms := by
  rw [cleanupSession]; cases lookupS c st.sessions <;> rfl

/-! ### Disconnect-scan lemmas -/

lemma foldl_disc_dead (sid code : String) (tid : Nat) :
    ∀ (l : List (String × Session)) (acc : ServerState),
      lookupS code acc.sessions = none → (∀ u ∈ acc.pending, u.id ≠ tid) →
      lookupS code (l.foldl (discStep sid) acc).sessions = none
        ∧ ∀ u ∈ (l.foldl (discStep sid) acc).pending, u.id ≠ tid
  | [], _, h1, h2 => ⟨h1, h2⟩
  | p :: rest, acc, h1, h2 => by
    rw [List.foldl_cons]
    apply foldl_disc_dead sid code tid rest
    · rw [discStep]; split
      · exact cleanup_lookup_none_mono _ h1
      · exact h1
    · rw [discStep]; split
      · exact fun u hu => h2 u (cleanup_pending_sub hu)
      · exact h2

lemma foldl_disc_owned (sid code : String) (s : Session) (hsid : s.socketId = sid) :
    ∀ (l : List (String × Session)) (acc : ServerState),
      (code, s) ∈ l → (l.map Prod.fst).Nodup →
      lookupS code acc.sessions = some s →
      lookupS code (l.foldl (discStep sid) acc).sessions = none
        ∧ ∀ u ∈ (l.foldl (discStep sid) acc).pending, u.id ≠ s.timerId
  | [], _, hm, _, _ => absurd hm (List.not_mem_nil _)
  | p :: rest, acc, hm, hn, hacc => by
    rw [List.foldl_cons]
    rw [List.map_cons, List.nodup_cons] at hn
    rcases List.mem_cons.mp hm with he | hm'
    · have hp : p = (code, s) := he.symm
      subst hp
      rw [discStep, if_pos hsid]
      exact foldl_disc_dead sid code s.timerId rest _
        (cleanup_lookup_self code acc) (cleanup_removes_timer hacc)
    · have hpc : p.1 ≠ code := by
        intro he
        exact hn.1 (by rw [he]; exact List.mem_map_of_mem Prod.fst hm')
      apply foldl_disc_owned sid code s hsid rest _ hm' hn.2
      rw [discStep]
      by_cases hp : p.2.socketId = sid
      · rw [if_pos hp, cleanup_lookup_other hpc]; exact hacc
      · rw [if_neg hp]; exact hacc

lemma foldl_disc_other (sid code : String) (s : Session) :
    ∀ (l : List (String × Session)) (acc : ServerState),
      (∀ p ∈ l, p.1 = code → p.2.socketId ≠ sid) →
      lookupS code acc.sessions = some s →
      lookupS code (l.foldl (discStep sid) acc).sessions = some s
  | [], _, _, hacc => hacc
  | p :: rest, acc, hl, hacc => by
    rw [List.foldl_cons]
    apply foldl_disc_other sid code s rest _
      (fun q hq => hl q (List.mem_cons_of_mem _ hq))
    rw [discStep]
    by_cases hp : p.2.socketId = sid
    · have hpc : p.1 ≠ code := fun he => hl p (List.mem_cons_self _ _) he hp
      rw [if_pos hp, cleanup_lookup_other hpc]; exact hacc
    · rw [if_neg hp]; exact hacc

/-! ### Sender-loop lemmas -/

/-- On the calls actually made by `senderChunks` (where
`offset + rem.length = fileSize` always holds), the termination-variant
conjunct of the `sendLoop` guard is redundant: the guard is equivalent to
the source's continuation check `offset + chunkLen < fileSize`. -/
lemma sendLoop_guard_iff {fileSize offset : Nat} {rem : List Nat}
    (hinv : offset + rem.length = fileSize) :
    (offset + (rem.take CHUNK_SIZE).length < fileSize ∧
        (rem.take CHUNK_SIZE).length < rem.length) ↔
      offset + (rem.take CHUNK_SIZE).length < fileSize := by
  constructor
  · exact And.left
  · intro h1
    exact ⟨h1, by omega⟩

lemma sendLoop_spec : ∀ (n : Nat) (rem : List Nat) (offset fileSize : Nat),
    rem.length ≤ n → offset + rem.length = fileSize →
    ((sendLoop fileSize offset rem).map Prod.fst).flatten = rem
      ∧ TagsFrom fileSize offset (sendLoop fileSize offset rem)
      ∧ sendLoop fileSize offset rem ≠ []
  | 0, rem, offset, fileSize, hn, hinv => by
    have hrem : rem = [] := List.eq_nil_of_length_eq_zero (Nat.le_zero.mp hn)
    subst hrem
    rw [sendLoop.eq_def, dif_neg (by simp)]
    simp [TagsFrom]
  | n + 1, rem, offset, fileSize, hn, hinv => by
    by_cases h : offset + (rem.take CHUNK_SIZE).length < fileSize ∧
        (rem.take CHUNK_SIZE).length < rem.length
    · have hC : CHUNK_SIZE < rem.length := by
        by_contra hle
        rw [List.take_of_length_le (by omega)] at h
        exact lt_irrefl _ h.2
      have hinv2 : (offset + (rem.take CHUNK_SIZE).length) +
          (rem.drop CHUNK_SIZE).length = fileSize := by
        have ht := List.length_take CHUNK_SIZE rem
        have hd := List.length_drop CHUNK_SIZE rem
        omega
      have hlen2 : (rem.drop CHUNK_SIZE).length ≤ n := by
        have hd := List.length_drop CHUNK_SIZE rem
        have hCpos : 0 < CHUNK_SIZE := by norm_num [CHUNK_SIZE]
        omega
      obtain ⟨ih1, ih2, ih3⟩ := sendLoop_spec n (rem.drop CHUNK_SIZE)
        (offset + (rem.take CHUNK_SIZE).length) fileSize hlen2 hinv2
      rw [sendLoop.eq_def, dif_pos h]
      refine ⟨?_, ?_, by simp⟩
      · rw [List.map_cons, List.flatten_cons, ih1]
        exact List.take_append_drop CHUNK_SIZE rem
      · rw [TagsFrom]
        refine ⟨rfl, ?_⟩
        have hlt : (rem.take CHUNK_SIZE).length = CHUNK_SIZE := by
          have ht := List.length_take CHUNK_SIZE rem
          omega
        exact ih2
    · have hB : ¬ (rem.take CHUNK_SIZE).length < rem.length := by
        intro hB
        exact h ⟨by omega, hB⟩
      have hle : rem.length ≤ CHUNK_SIZE := by
        have ht := List.length_take CHUNK_SIZE rem
        omega
      have hre : rem.take CHUNK_SIZE = rem := List.take_of_length_le hle
      rw [sendLoop.eq_def, dif_neg h]
      refine ⟨?_, ?_, by simp⟩
      · simp [hre]
      · rw [TagsFrom]
        exact ⟨rfl, trivial⟩

/-- Characterisation of the full chunk sequence emitted by the sender:
the chunks concatenate back to the file content and the tags follow the
`(offset / fileSize) * 100` discipline starting at offset 0. -/
lemma senderChunks_spec (content : List Nat) :
    ((senderChunks content).map Prod.fst).flatten = content
      ∧ TagsFrom content.length 0 (senderChunks content)
      ∧ senderChunks content ≠ [] :=
  sendLoop_spec content.length content 0 content.length le_rfl (by omega)

/-- One step of tag growth: tags computed at a later offset are at least
tags computed at an earlier one (division by a fixed nonnegative size). -/
lemma tag_step_le (fs offset d : Nat) :
    ((offset : ℚ) / (fs : ℚ)) * 100 ≤ (((offset + d : Nat) : ℚ) / (fs : ℚ)) * 100 := by
  by_cases hfs : fs = 0
  · simp [hfs]
  · have h1 : (0 : ℚ) < (fs : ℚ) := by exact_mod_cast Nat.pos_of_ne_zero hfs
    have hxy : ((offset : Nat) : ℚ) ≤ ((offset + d : Nat) : ℚ) := by
      exact_mod_cast Nat.le_add_right offset d
    exact mul_le_mul_of_nonneg_right ((div_le_div_iff_of_pos_right h1).mpr hxy)
      (by norm_num)

lemma TagsFrom_le (fs : Nat) :
    ∀ (cs : List (List Nat × ℚ)) (offset : Nat), TagsFrom fs offset cs →
      ∀ q ∈ cs, ((offset : ℚ) / (fs : ℚ)) * 100 ≤ q.2
  | [], _, _, q, hq => absurd hq (List.not_mem_nil _)
  | a :: rest, offset, ht, q, hq => by
    rw [TagsFrom] at ht
    rcases List.mem_cons.mp hq with he | hm
    · rw [he, ht.1]
    · exact le_trans (by exact_mod_cast tag_step_le fs offset a.1.length)
        (TagsFrom_le fs rest (offset + a.1.length) ht.2 q hm)

lemma TagsFrom_pairwise (fs : Nat) :
    ∀ (cs : List (List Nat × ℚ)) (offset : Nat), TagsFrom fs offset cs →
      List.Pairwise (· ≤ ·) (cs.map Prod.snd)
  | [], _, _ => List.Pairwise.nil
  | a :: rest, offset, ht => by
    rw [TagsFrom] at ht
    rw [List.map_cons]
    refine List.Pairwise.cons ?_ (TagsFrom_pairwise fs rest (offset + a.1.length) ht.2)
    intro b hb
    rcases List.mem_map.mp hb with ⟨q, hq, hqe⟩
    rw [← hqe, ht.1]
    exact le_trans (by exact_mod_cast tag_step_le fs offset a.1.length)
      (TagsFrom_le fs rest (offset + a.1.length) ht.2 q hq)

lemma TagsFrom_getElem (fs : Nat) :
    ∀ (cs : List (List Nat × ℚ)) (offset k : Nat) (c : List Nat) (p : ℚ),
      TagsFrom fs offset cs → cs[k]? = some (c, p) →
      p = (((offset + (((cs.take k).map (fun q => q.1.length)).sum) : Nat)) : ℚ)
          / (fs : ℚ) * 100
  | [], offset, k, c, p, _, hk => by simp at hk
  | a :: rest, offset, 0, c, p, ht, hk => by
    rw [TagsFrom] at ht
    rw [List.getElem?_cons_zero, Option.some_inj] at hk
    subst hk
    simpa using ht.1
  | a :: rest, offset, k + 1, c, p, ht, hk => by
    rw [TagsFrom] at ht
    rw [List.getElem?_cons_succ] at hk
    have ih := TagsFrom_getElem fs rest (offset + a.1.length) k c p ht.2 hk
    rw [ih, List.take_succ_cons, List.map_cons, List.sum_cons]
    have harith : offset + a.1.length + ((rest.take k).map (fun q => q.1.length)).sum
        = offset + (a.1.length + ((rest.take k).map (fun q => q.1.length)).sum) := by
      omega
    rw [harith]

/-! ### Concrete evaluations used by counterexamples and witnesses -/

/-- A one-byte file is sent as a single chunk tagged 0. -/
lemma senderChunks_one : senderChunks [(5 : Nat)] = [([5], 0)] := by
  have ht : ([5] : List Nat).take CHUNK_SIZE = [5] :=
    List.take_of_length_le (by norm_num [CHUNK_SIZE])
  rw [senderChunks, sendLoop.eq_def]
  rw [dif_neg (by rw [ht]; norm_num)]
  rw [ht]
  norm_num

/-- A file one byte longer than `CHUNK_SIZE` is sent as a full 64 KiB
chunk tagged 0 followed by a one-byte chunk tagged
`(65536 / 65537) * 100 = 6553600 / 65537`. -/
lemma senderChunks_replicate :
    senderChunks (List.replicate 65537 (37 : Nat)) =
      [(List.replicate 65536 37, 0), (List.replicate 1 37, (6553600 : ℚ) / 65537)] := by
  have h1 : (List.replicate 65537 (37 : Nat)).take CHUNK_SIZE = List.replicate 65536 37 := by
    rw [List.take_replicate]
    norm_num [CHUNK_SIZE]
  have h2 : (List.replicate 65537 (37 : Nat)).drop CHUNK_SIZE = List.replicate 1 37 := by
    rw [List.drop_replicate]
    norm_num [CHUNK_SIZE]
  have h3 : (List.replicate 1 (37 : Nat)).take CHUNK_SIZE = List.replicate 1 37 :=
    List.take_of_length_le (by norm_num [CHUNK_SIZE])
  rw [senderChunks, List.length_replicate]
  rw [sendLoop.eq_def]
  rw [dif_pos (by rw [h1]; simp only [List.length_replicate]; omega)]
  rw [h1, h2, List.length_replicate]
  rw [sendLoop.eq_def]
  rw [dif_neg (by rw [h3]; simp only [List.length_replicate]; omega)]
  rw [h3]
  have e1 : ((0 : Nat) : ℚ) / ((65537 : Nat) : ℚ) * 100 = 0 := by norm_num
  have e2 : (((0 + 65536 : Nat)) : ℚ) / ((65537 : Nat) : ℚ) * 100 = (6553600 : ℚ) / 65537 := by
    norm_num [div_mul_eq_mul_div]
  rw [e1, e2]

/-! ### Claim theorems -/

/-- C1: handling `create-session` for a code that already has a live
session first tears the existing session down and then registers the
caller: afterwards the code resolves to the caller's fresh session,
exactly one registry entry exists for the code, the old session's timer
id is no longer pending, and no timer carrying the old id can fire (its
callback is a no-op).  The hypothesis `hfresh` holds on every reachable
state because timer ids are issued by the strictly increasing counter. -/
theorem c1_create_replaces_and_cancels (st : ServerState) (code sid : String)
    (s : Session) (hlive : lookupS code st.sessions = some s)
    (hfresh : s.timerId < st.nextTimer) :
    lookupS code (createSession code sid st).sessions = some ⟨sid, st.nextTimer⟩
      ∧ (createSession code sid st).sessions.countP (fun p => p.1 == code) = 1
      ∧ (∀ t ∈ (createSession code sid st).pending, t.id ≠ s.timerId)
      ∧ (∀ t : Timer, t.id = s.timerId →
          fireExpiry t (createSession code sid st) = createSession code sid st) := by
  have hcl : cleanupSession code st =
      { st with
        sessions := st.sessions.filter (fun p => p.1 != code)
        pending := st.pending.filter (fun t => t.id != s.timerId)
        uploads := st.uploads.filter (fun f => !(f.startsWith code)) } := by
    rw [cleanupSession, hlive]
  have hpend : ∀ t ∈ (createSession code sid st).pending, t.id ≠ s.timerId := by
    intro t ht
    simp only [createSession, hcl] at ht
    rcases List.mem_cons.mp ht with he | hm
    · rw [he]
      exact ne_of_gt hfresh
    · exact bne_iff_ne.mp (List.mem_filter.mp hm).2
  refine ⟨?_, ?_, hpend, ?_⟩
  · simp only [createSession, hcl]
    rw [lookupS, if_pos rfl]
  · simp only [createSession, hcl]
    rw [List.countP_cons]
    have h0 : (st.sessions.filter (fun p => p.1 != code)).countP
        (fun p => p.1 == code) = 0 := by
      rw [List.countP_eq_zero]
      intro p hp
      have hne := bne_iff_ne.mp (List.mem_filter.mp hp).2
      simp [hne]
    simp [h0]
  · intro t hid
    rw [fireExpiry, if_neg (fun hmem => hpend t hmem hid)]

/-- C1 witness: replacing the live session `"C"` in `demoState`. -/
theorem c1_witness :
    lookupS "C" (createSession "C" "sender2" demoState).sessions = some ⟨"sender2", 1⟩
      ∧ (createSession "C" "sender2" demoState).sessions.countP
          (fun p => p.1 == "C") = 1
      ∧ fireExpiry ⟨0, "C", "owner"⟩ (createSession "C" "sender2" demoState)
          = createSession "C" "sender2" demoState := by
  have h := c1_create_replaces_and_cancels demoState "C" "sender2" ⟨"owner", 0⟩
    rfl (by norm_num [demoState])
  exact ⟨h.1, h.2.1, h.2.2.2 ⟨0, "C", "owner"⟩ rfl⟩

/-- C2: on a live session, a `file-meta` whose size strictly exceeds the
2 GiB limit makes the server emit an `error` event with a human-readable
message to the caller and nothing else (in particular no `file-meta`
rebroadcast), while a size of exactly 2 GiB is accepted and rebroadcast
to the room. -/
theorem c2_file_meta_size_limit (st : ServerState) (sid name mime code : String)
    (size : Nat) (s : Session) (hlive : lookupS code st.sessions = some s) :
    (size > MAX_FILE_SIZE →
        handleFileMeta sid name size mime code st =
          { st with emitted := st.emitted ++
              [⟨Target.socket sid, SEvent.errorMsg "File size exceeds 2GB limit"⟩] })
      ∧ (size = MAX_FILE_SIZE →
        handleFileMeta sid name size mime code st =
          { st with emitted := st.emitted ++
              [⟨Target.room code sid, SEvent.fileMeta name size mime⟩] }) := by
  have hne : ¬ lookupS code st.sessions = none := by rw [hlive]; simp
  constructor
  · intro hgt
    rw [handleFileMeta, if_neg hne, if_pos hgt]
  · intro heq
    rw [handleFileMeta, if_neg hne, if_neg (by omega)]

/-- C2 witness: one byte over the limit is rejected with the error
message; exactly the limit is rebroadcast, both on `demoState`. -/
theorem c2_witness :
    handleFileMeta "owner" "big.bin" (MAX_FILE_SIZE + 1) "bin" "C" demoState =
        { demoState with emitted := demoState.emitted ++
            [⟨Target.socket "owner", SEvent.errorMsg "File size exceeds 2GB limit"⟩] }
      ∧ handleFileMeta "owner" "big.bin" MAX_FILE_SIZE "bin" "C" demoState =
        { demoState with emitted := demoState.emitted ++
            [⟨Target.room "C" "owner", SEvent.fileMeta "big.bin" MAX_FILE_SIZE "bin"⟩] } := by
  refine ⟨?_, ?_⟩
  · exact (c2_file_meta_size_limit demoState "owner" "big.bin" "bin" "C"
      (MAX_FILE_SIZE + 1) ⟨"owner", 0⟩ rfl).1 (by omega)
  · exact (c2_file_meta_size_limit demoState "owner" "big.bin" "bin" "C"
      MAX_FILE_SIZE ⟨"owner", 0⟩ rfl).2 rfl

/-- C7: teardown is idempotent.  On a live session it removes the
registry entry, cancels the pending timer and deletes exactly the upload
artifacts whose name starts with the code; on an absent code it is a
strict no-op, and running it twice equals running it once. -/
theorem c7_teardown_idempotent (code : String) (st : ServerState) :
    (∀ s, lookupS code st.sessions = some s →
        lookupS code (cleanupSession code st).sessions = none
          ∧ (∀ u ∈ (cleanupSession code st).pending, u.id ≠ s.timerId)
          ∧ (cleanupSession code st).uploads =
              st.uploads.filter (fun f => !(f.startsWith code)))
      ∧ (lookupS code st.sessions = none → cleanupSession code st = st)
      ∧ cleanupSession code (cleanupSession code st) = cleanupSession code st := by
  refine ⟨?_, cleanup_of_none, ?_⟩
  · intro s hs
    refine ⟨cleanup_lookup_self code st, cleanup_removes_timer hs, ?_⟩
    rw [cleanupSession, hs]
  · exact cleanup_of_none (cleanup_lookup_self code st)

/-- C7 witness: teardown of the live session `"C"` in `demoState` and of
the absent code `"X"`. -/
theorem c7_witness :
    lookupS "C" (cleanupSession "C" demoState).sessions = none
      ∧ (⟨0, "C", "owner"⟩ : Timer) ∉ (cleanupSession "C" demoState).pending
      ∧ (cleanupSession "C" demoState).uploads =
          demoState.uploads.filter (fun f => !(f.startsWith "C"))
      ∧ cleanupSession "C" (cleanupSession "C" demoState) = cleanupSession "C" demoState
      ∧ cleanupSession "X" demoState = demoState := by
  have h := (c7_teardown_idempotent "C" demoState).1 ⟨"owner", 0⟩ rfl
  refine ⟨h.1, fun hm => h.2.1 _ hm rfl, h.2.2,
    (c7_teardown_idempotent "C" demoState).2.2,
    (c7_teardown_idempotent "X" demoState).2.1 rfl⟩

/-- C8: a `join-session` for a code with no live session only emits
`invalid-session` to the caller: the resulting state is the old state
with exactly that one event appended (registry, rooms, timers and
uploads unchanged), and every event present afterwards either already
existed or is delivered to the caller alone. -/
theorem c8_join_nonexistent (sid code : String) (st : ServerState)
    (h : lookupS code st.sessions = none) :
    joinSession sid code st =
        { st with emitted := st.emitted ++ [⟨Target.socket sid, SEvent.invalidSession⟩] }
      ∧ ∀ e ∈ (joinSession sid code st).emitted,
          e ∈ st.emitted ∨ recipients st e = [sid] := by
  have hj : joinSession sid code st =
      { st with emitted := st.emitted ++ [⟨Target.socket sid, SEvent.invalidSession⟩] } := by
    rw [joinSession, if_pos h]
  refine ⟨hj, ?_⟩
  intro e he
  rw [hj] at he
  simp only [List.mem_append, List.mem_singleton] at he
  rcases he with h1 | h2
  · exact Or.inl h1
  · right
    rw [h2]
    rfl

/-- C8 witness: joining the unknown code `"X"` on the empty server. -/
theorem c8_witness :
    joinSession "joiner" "X" initState =
      { initState with emitted := initState.emitted ++
          [⟨Target.socket "joiner", SEvent.invalidSession⟩] } :=
  (c8_join_nonexistent "joiner" "X" initState rfl).1

/-- C9: on disconnect of a socket, every session it owns is torn down
(its code no longer resolves and no timer with its timer id remains
pending), while sessions owned by other sockets still resolve to their
unchanged entry.  Key uniqueness (`hkeys`) holds on every reachable
state since `create-session` removes an existing entry before inserting. -/
theorem c9_disconnect_cleanup (sid : String) (st : ServerState)
    (hkeys : (st.sessions.map Prod.fst).Nodup) :
    (∀ code s, lookupS code st.sessions = some s → s.socketId = sid →
        lookupS code (handleDisconnect sid st).sessions = none
          ∧ ∀ u ∈ (handleDisconnect sid st).pending, u.id ≠ s.timerId)
      ∧ (∀ code s, lookupS code st.sessions = some s → s.socketId ≠ sid →
        lookupS code (handleDisconnect sid st).sessions = some s) := by
  constructor
  · intro code s hs hsid
    exact foldl_disc_owned sid code s hsid st.sessions st (lookupS_mem hs) hkeys hs
  · intro code s hs hns
    apply foldl_disc_other sid code s st.sessions st _ hs
    intro p hp hpc
    have hmem := lookupS_mem hs
    have hpe : p = (code, s) := nodup_keys_eq hkeys hp hmem (by rw [hpc])
    rw [hpe]
    exact hns

/-- C9 witness: disconnecting `"s1"` on `st9` removes exactly session
`"A"` and its timer, leaving `"B"` intact. -/
theorem c9_witness :
    lookupS "A" (handleDisconnect "s1" st9).sessions = none
      ∧ lookupS "B" (handleDisconnect "s1" st9).sessions = some ⟨"s2", 1⟩
      ∧ (⟨0, "A", "s1"⟩ : Timer) ∉ (handleDisconnect "s1" st9).pending := by
  have h := c9_disconnect_cleanup "s1" st9 (by decide)
  have h1 := h.1 "A" ⟨"s1", 0⟩ rfl rfl
  exact ⟨h1.1, h.2 "B" ⟨"s2", 1⟩ rfl (by decide), fun hm => h1.2 _ hm rfl⟩

/-- Helper for the C3 counterexample, with the first chunk abstracted so
that no proof step evaluates a 64 Ki-element list. -/
lemma c3_cex_aux (A : List Nat) (hL1 : A.length = 65536)
    (hcl : TagsFractional 65537 0
      [(A, 0), (List.replicate 1 37, (6553600 : ℚ) / 65537)]) : False := by
  have h4 : (6553600 : ℚ) / 65537
      = ((0 + A.length : Nat) : ℚ) / ((65537 : Nat) : ℚ) := hcl.2.1
  rw [hL1] at h4
  norm_num at h4

/-- C6 counterexample: the claim says expiry "notifies all room members".
In the state reached by `create-session "C"` (owner) and `join-session`
(receiver), the pending timer fires and emits exactly one
`session-expired` broadcast to the room — but the broadcast is emitted
through the owner's socket, which socket.io excludes from `socket.to`,
so the owner, although a room member, is not a recipient. -/
theorem c6_counterexample :
    (⟨0, "C", "owner"⟩ : Timer) ∈ cexState.pending
      ∧ (fireExpiry ⟨0, "C", "owner"⟩ cexState).emitted =
          cexState.emitted ++ [⟨Target.room "C" "owner", SEvent.sessionExpired⟩]
      ∧ "owner" ∈ roomMembers "C" cexState
      ∧ "owner" ∉ recipients cexState ⟨Target.room "C" "owner", SEvent.sessionExpired⟩
      ∧ "recv" ∈ recipients cexState ⟨Target.room "C" "owner", SEvent.sessionExpired⟩ := by
  decide

/-- C6 amended: when the expiry timer of a session fires, the server
emits exactly one `session-expired` broadcast to the session's room —
received by every room member except the owner's own connection, through
which the broadcast is emitted — and then tears the session down, after
which the timer is no longer pending; a timer that is not pending (in
particular one cancelled by an earlier teardown) does nothing, so no
broadcast occurs for an already-torn-down session. -/
theorem c6_expiry_behavior (st : ServerState) (t : Timer) :
    (t ∈ st.pending →
        (fireExpiry t st).emitted =
            st.emitted ++ [⟨Target.room t.code t.ownerSid, SEvent.sessionExpired⟩]
          ∧ lookupS t.code (fireExpiry t st).sessions = none
          ∧ t ∉ (fireExpiry t st).pending
          ∧ t.ownerSid ∉ recipients st ⟨Target.room t.code t.ownerSid, SEvent.sessionExpired⟩
          ∧ ∀ m ∈ roomMembers t.code st, m ≠ t.ownerSid →
              m ∈ recipients st ⟨Target.room t.code t.ownerSid, SEvent.sessionExpired⟩)
      ∧ (t ∉ st.pending → fireExpiry t st = st)
      ∧ (∀ code s, lookupS code st.sessions = some s → t.id = s.timerId →
          t ∉ (cleanupSession code st).pending) := by
  refine ⟨?_, ?_, ?_⟩
  · intro h
    rw [fireExpiry, if_pos h]
    refine ⟨cleanup_emitted _ _, cleanup_lookup_self _ _, ?_, ?_, ?_⟩
    · intro hm
      have hm2 := cleanup_pending_sub hm
      have := (List.mem_filter.mp hm2).2
      simp at this
    · intro hm
      rw [recipients] at hm
      have := (List.mem_filter.mp hm).2
      simp at this
    · intro m hm hne
      rw [recipients]
      exact List.mem_filter.mpr ⟨hm, bne_iff_ne.mpr hne⟩
  · intro h
    rw [fireExpiry, if_neg h]
  · intro code s hs hid hmem
    exact cleanup_removes_timer hs t hmem hid

/-- C6 witness: firing the pending timer of `cexState` (one broadcast,
session gone, timer consumed); a non-pending timer is a no-op. -/
theorem c6_witness :
    (fireExpiry ⟨0, "C", "owner"⟩ cexState).emitted =
        cexState.emitted ++ [⟨Target.room "C" "owner", SEvent.sessionExpired⟩]
      ∧ lookupS "C" (fireExpiry ⟨0, "C", "owner"⟩ cexState).sessions = none
      ∧ (⟨0, "C", "owner"⟩ : Timer) ∉ (fireExpiry ⟨0, "C", "owner"⟩ cexState).pending
      ∧ fireExpiry ⟨5, "C", "owner"⟩ cexState = cexState := by
  have h := (c6_expiry_behavior cexState ⟨0, "C", "owner"⟩).1 (by decide)
  exact ⟨h.1, h.2.1, h.2.2.1,
    (c6_expiry_behavior cexState ⟨5, "C", "owner"⟩).2.1 (by decide)⟩

/-- C3 counterexample: the claim says each chunk is tagged with the plain
fraction `offset / totalSize`.  For a file one byte longer than a chunk,
the second chunk is tagged `(65536 / 65537) * 100 = 6553600 / 65537`, not
`65536 / 65537`: the sender multiplies by 100 (a percentage). -/
theorem c3_counterexample :
    ¬ ProgressFractionalClaim (List.replicate 65537 (37 : Nat)) := by
  rw [ProgressFractionalClaim, senderChunks_replicate, List.length_replicate]
  intro hcl
  exact c3_cex_aux (List.replicate 65536 37) (List.length_replicate 65536 37) hcl

/-- C3 amended: each chunk emitted by the sender for a nonempty file is
tagged with `(offset / totalSize) * 100` — a percentage, not a plain
fraction — where `offset` is the number of bytes emitted before that
chunk (the progress is computed before adding the chunk's own length). -/
theorem c3_progress_percentage (content : List Nat) (_hne : content ≠ []) (k : Nat)
    (c : List Nat) (p : ℚ) (hk : (senderChunks content)[k]? = some (c, p)) :
    p = ((((senderChunks content).take k).map (fun q => q.1.length)).sum : ℚ)
        / (content.length : ℚ) * 100 := by
  have ht := (senderChunks_spec content).2.1
  have h := TagsFrom_getElem content.length (senderChunks content) 0 k c p ht hk
  simpa using h

/-- C3 witness: a one-byte file is emitted as one chunk tagged 0. -/
theorem c3_witness :
    (0 : ℚ) = ((((senderChunks [5]).take 0).map (fun q => q.1.length)).sum : ℚ)
        / (([5] : List Nat).length : ℚ) * 100 :=
  c3_progress_percentage [5] (by simp) 0 [5] 0 (by rw [senderChunks_one]; rfl)

/-- C4 counterexample: the claim says the final chunk's reported progress
plus that chunk's length equals the declared total size.  For a file one
byte longer than a chunk the final chunk reports `6553600 / 65537`
(a percentage) and has length 1, and `6553600 / 65537 + 1 ≠ 65537`. -/
theorem c4_counterexample :
    ¬ C4Claimed (List.replicate 65537 (37 : Nat)) := by
  rw [C4Claimed, senderChunks_replicate]
  intro hcl
  have hg : ([(List.replicate 65536 (37 : Nat), (0 : ℚ)),
      (List.replicate 1 37, (6553600 : ℚ) / 65537)]).getLast?
      = some (List.replicate 1 37, (6553600 : ℚ) / 65537) := rfl
  have h2 := hcl.2 (List.replicate 1 37) ((6553600 : ℚ) / 65537) hg
  rw [List.length_replicate, List.length_replicate] at h2
  norm_num at h2

/-- C4 amended: for a nonempty file the progress tags of consecutive
chunks are non-decreasing, concatenating the chunks in emission order
reproduces the file content exactly (so its length equals the declared
size), and the final chunk's starting byte offset — the sum of all
earlier chunk lengths, which is what its progress tag encodes as a
percentage — plus its own length equals the declared total size. -/
theorem c4_progress_roundtrip (content : List Nat) (_hne : content ≠ []) :
    List.Pairwise (· ≤ ·) ((senderChunks content).map Prod.snd)
      ∧ ((senderChunks content).map Prod.fst).flatten = content
      ∧ ∀ c p, (senderChunks content).getLast? = some (c, p) →
          ((senderChunks content).dropLast.map (fun q => q.1.length)).sum + c.length
            = content.length := by
  obtain ⟨hj, ht, hne2⟩ := senderChunks_spec content
  refine ⟨TagsFrom_pairwise content.length (senderChunks content) 0 ht, hj, ?_⟩
  intro c p hg
  have hlen : ((senderChunks content).map Prod.fst).flatten.length = content.length := by
    rw [hj]
  rw [List.length_flatten] at hlen
  have hsplit := List.dropLast_append_getLast? (c, p) hg
  rw [← hsplit, List.map_append, List.map_append, List.sum_append] at hlen
  simp only [List.map_cons, List.map_nil, List.sum_cons, List.sum_nil] at hlen
  have hmm : ((senderChunks content).dropLast.map (fun q => q.1.length)).sum
      = (((senderChunks content).dropLast.map Prod.fst).map List.length).sum := by
    rw [List.map_map]
    rfl
  rw [hmm]
  omega

/-- C4 witness: a one-byte file — one chunk, trivially sorted tags, the
chunks concatenate to the file, and start offset plus length is the
declared size. -/
theorem c4_witness :
    List.Pairwise (· ≤ ·) ((senderChunks [5]).map Prod.snd)
      ∧ ((senderChunks [5]).map Prod.fst).flatten = [5]
      ∧ ((senderChunks [5]).dropLast.map (fun q => q.1.length)).sum +
          ([5] : List Nat).length = ([5] : List Nat).length := by
  have h := c4_progress_roundtrip [5] (by simp)
  exact ⟨h.1, h.2.1, h.2.2 [5] 0 (by rw [senderChunks_one]; rfl)⟩

/-- C5: the receiver's `transfer-complete` listener marks every file
whose status is `transferring` as `completed` — for any value of the
`received` counter, equal to the declared size or not — and leaves every
file in any other status unchanged; the list length is preserved. -/
theorem c5_transfer_complete (files : List FileData) (k : Nat) (f : FileData)
    (hk : files[k]? = some f) :
    (onTransferComplete files).length = files.length
      ∧ (f.status = FileStatus.transferring →
          (onTransferComplete files)[k]? = some { f with status := FileStatus.completed })
      ∧ (f.status ≠ FileStatus.transferring → (onTransferComplete files)[k]? = some f) := by
  refine ⟨by rw [onTransferComplete, List.length_map], ?_, ?_⟩
  · intro hs
    rw [onTransferComplete, List.getElem?_map, hk]
    simp [hs]
  · intro hs
    rw [onTransferComplete, List.getElem?_map, hk]
    simp only [Option.map_some', if_neg hs]

/-- C5 witness: on `demoFiles` the transferring file (with
`received = 3 ≠ 10 = size`) becomes `completed`, the errored one is
untouched. -/
theorem c5_witness :
    (onTransferComplete demoFiles).length = demoFiles.length
      ∧ (onTransferComplete demoFiles)[0]? =
          some ⟨"id1", "a.txt", 10, "text/plain", 3, [[1, 2, 3]], FileStatus.completed⟩
      ∧ (onTransferComplete demoFiles)[1]? =
          some ⟨"id2", "b.txt", 5, "text/plain", 5, [], FileStatus.error⟩ := by
  have h0 := c5_transfer_complete demoFiles 0
    ⟨"id1", "a.txt", 10, "text/plain", 3, [[1, 2, 3]], FileStatus.transferring⟩ rfl
  have h1 := c5_transfer_complete demoFiles 1
    ⟨"id2", "b.txt", 5, "text/plain", 5, [], FileStatus.error⟩ rfl
  exact ⟨h0.1, h0.2.1 rfl, h1.2.2 (by decide)⟩

/-- C10: a `file-chunk` arriving while the receiver's file list is empty
is silently discarded — the receiver state (file list and progress map)
is returned unchanged and no entry is created. -/
theorem c10_chunk_no_files (chunk : List Nat) (st : ReceiverState)
    (h : st.files = []) : onFileChunk chunk st = st := by
  simp [onFileChunk, h]

/-- C10 witness: a chunk delivered to the empty receiver state. -/
theorem c10_witness : onFileChunk [9, 9] ⟨[], []⟩ = ⟨[], []⟩ :=
  c10_chunk_no_files [9, 9] ⟨[], []⟩ rfl

end FileShare
